import Mathlib

/-!
Shallow embedding of the vec-memory store (src/memory.ts, src/database.ts).

Modelling conventions:
- SQLite tables are lists of row records held in a `DB` value; every mutating
  operation returns its result together with the successor state, so an
  operation that throws before touching a table returns the input state.
- Timestamps are abstract clock ticks (`Nat`); each mutating call receives the
  current tick `now` (the source reads the wall clock or CURRENT_TIMESTAMP).
- REAL columns (`strength`, cosine distances, thresholds) are `Rat`.
- `JSON.stringify` / `JSON.parse` from the JS standard library are modelled
  algebraically: a stored metadata text is either `StoredText.ser m` (the
  serialization of mapping `m`, which parses back to `m`) or
  `StoredText.malformed s` (non-empty text on which `JSON.parse` throws).
  A NULL or empty-string column is `none`; `row.metadata || chr123chr125`
  turns it into the empty-object text, which parses to the empty mapping.
- The external embedding provider (`generateEmbedding` in src/ollama.ts) is a
  parameter `embed : String -> Except Err Vec`; the cosine-distance operator
  `vec_distance_cosine` supplied by the sqlite-vec extension is a parameter
  `dist : Vec -> Vec -> Rat`.
- `DB.vecAvailable` records whether the `memory_embeddings` vec0 virtual table
  exists (sqlite-vec loaded); when it is false every statement touching that
  table throws, which the source catches where it uses try/catch.
- better-sqlite3 compiles SQLite with SQLITE_DEFAULT_FOREIGN_KEYS=1, so the
  `ON DELETE CASCADE` clauses of src/database.ts are enforced: deleting
  memory rows removes the relationships referencing them as either endpoint.
  `deleteMemory` models this cascade.
- SQL `LIKE` (used by the fallback search) is modelled by `likeMatch`:
  ASCII-case-insensitive, `%` matching any run and `_` any single character,
  per default SQLite semantics (case_sensitive_like is never set).
-/

/-- Metadata mapping as the program sees it after JSON.parse: a key-value
document, modelled as an association list. -/
abbrev Meta := List (String × String)

/-- Embedding vector; entries are opaque to every claim, distances come from
the `dist` parameter. -/
abbrev Vec := List Int

/-- Text persisted in a metadata column: either the JSON.stringify image of a
mapping, or non-empty text on which JSON.parse throws. -/
inductive StoredText where
  | ser (m : Meta)
  | malformed (s : String)
deriving DecidableEq

/-- Errors a call can reject with. -/
inductive Err where
  | embedFail (msg : String)
  | jsonErr (text : String)
  | sqlErr (msg : String)
  | constraintErr (msg : String)
deriving DecidableEq

/-- Model of `JSON.parse(column || emptyObjectText)`: NULL or empty text gives
the empty mapping, a serialized mapping parses back, malformed text throws. -/
def parseMeta : Option StoredText → Except Err Meta
  | none => .ok []
  | some (.ser m) => .ok m
  | some (.malformed s) => .error (.jsonErr s)

/-- True when parsing the stored text cannot throw. -/
def metaWF : Option StoredText → Bool
  | some (.malformed _) => false
  | _ => true

/-- Total read of a stored metadata text (used on the spec side; agrees with
`parseMeta` on well-formed text). -/
def metaD : Option StoredText → Meta
  | some (.ser m) => m
  | _ => []

/-- Row of the `memories` table. -/
structure MemRow where
  id : String
  content : String
  metadata : Option StoredText
  created_at : Nat
  updated_at : Nat
deriving DecidableEq

/-- Row of the `relationships` table. -/
structure RelRow where
  id : String
  from_memory_id : String
  to_memory_id : String
  relationship_type : String
  strength : Rat
  metadata : Option StoredText
  created_at : Nat
deriving DecidableEq

/-- Whole database state, plus the capability flag for the vec0 virtual
table. -/
structure DB where
  memories : List MemRow
  relationships : List RelRow
  embeddings : List (String × Vec)
  vecAvailable : Bool
deriving DecidableEq

/-- Memory record as returned to callers (metadata already parsed). -/
structure Memory where
  id : String
  content : String
  metadata : Meta
  created_at : Nat
  updated_at : Nat
deriving DecidableEq

/-- Relationship record as returned to callers. -/
structure Relationship where
  id : String
  from_memory_id : String
  to_memory_id : String
  relationship_type : String
  strength : Rat
  metadata : Meta
  created_at : Nat
deriving DecidableEq

/-- Direction filter of a relationship query (source values are the strings
from, to, both). -/
inductive Direction where
  | fromSide
  | toSide
  | both
deriving DecidableEq

/-- Query record of `getRelationships`, with the defaults the source
destructures. -/
structure RelationshipQuery where
  memoryId : Option String := none
  relationshipType : Option String := none
  direction : Direction := .both
  minStrength : Rat := 0
  limit : Nat := 100

/-- Insert into a list sorted by the Boolean comparator (model of the order
an SQL ORDER BY produces). -/
def insertSorted (le : α → α → Bool) (a : α) : List α → List α
  | [] => [a]
  | b :: l => if le a b then a :: b :: l else b :: insertSorted le a l

/-- Insertion sort by a Boolean comparator. -/
def sortBy (le : α → α → Bool) : List α → List α
  | [] => []
  | a :: l => insertSorted le a (sortBy le l)

/-- Effectful map over Except, mirroring a sequence of row conversions each
of which can throw. -/
def mapE (f : α → Except Err β) : List α → Except Err (List β)
  | [] => .ok []
  | a :: l =>
    match f a with
    | .error e => .error e
    | .ok b =>
      match mapE f l with
      | .error e => .error e
      | .ok bs => .ok (b :: bs)

/-- ASCII lower-casing as SQLite LIKE applies it. -/
def lowerAscii (c : Char) : Char :=
  if 'A' ≤ c ∧ c ≤ 'Z' then Char.ofNat (c.toNat + 32) else c

/-- SQLite LIKE pattern matching over characters, with structural fuel: `%`
matches any run, `_` any single character, other characters compare
ASCII-case-insensitively. Every step consumes one unit of fuel and strictly
shrinks the combined length of pattern and string, so the fuel chosen by
`likeMatch` is never exhausted. -/
def likeMatchF : Nat → List Char → List Char → Bool
  | _ + 1, [], [] => true
  | _ + 1, [], _ :: _ => false
  | f + 1, '%' :: p, [] => likeMatchF f p []
  | f + 1, '%' :: p, c :: s => likeMatchF f p (c :: s) || likeMatchF f ('%' :: p) s
  | _ + 1, '_' :: _, [] => false
  | f + 1, '_' :: p, _ :: s => likeMatchF f p s
  | _ + 1, _ :: _, [] => false
  | f + 1, a :: p, c :: s => (lowerAscii a == lowerAscii c) && likeMatchF f p s
  | 0, _, _ => false

/-- SQLite LIKE with sufficient fuel. -/
def likeMatch (p s : List Char) : Bool := likeMatchF (p.length + s.length + 1) p s

/-- Pattern the fallback query builds: percent, the query text, percent. -/
def likePattern (q : String) : List Char := '%' :: q.data ++ ['%']

/-- Case-sensitive character equality at the head (claim-side notion used to
state what a case-sensitive substring scan would be). -/
def headMatches : List Char → List Char → Bool
  | [], _ => true
  | _ :: _, [] => false
  | a :: q, c :: s => a == c && headMatches q s

/-- Case-sensitive substring containment (the claim-side formalization of the
spec words, distinct from the LIKE semantics the code uses). -/
def containsSub : List Char → List Char → Bool
  | q, [] => headMatches q []
  | q, c :: s => headMatches q (c :: s) || containsSub q s

/-- getMemory: SELECT the row by id, return null when absent, otherwise parse
the metadata column (JSON.parse throws on malformed text — no try/catch in
the source). -/
def getMemory (db : DB) (id : String) : Except Err (Option Memory) :=
  match db.memories.find? (fun r => r.id == id) with
  | none => .ok none
  | some row =>
    match parseMeta row.metadata with
    | .error e => .error e
    | .ok m => .ok (some ⟨row.id, row.content, m, row.created_at, row.updated_at⟩)

/-- addMemory: await the embedding first (a failure rejects before any write),
INSERT the memory row, then best-effort INSERT the embedding row (failures of
the vec0 table are swallowed by try/catch). `newId` is the fresh randomUUID
and `now` the current clock tick. -/
def addMemory (embed : String → Except Err Vec) (db : DB) (newId : String)
    (now : Nat) (content : String) (metadata : Meta) : Except Err String × DB :=
  match embed content with
  | .error e => (.error e, db)
  | .ok v =>
    if db.memories.any (fun r => r.id == newId) then
      (.error (.constraintErr "UNIQUE constraint failed"), db)
    else
      (.ok newId,
        { db with
          memories := db.memories ++ [⟨newId, content, some (.ser metadata), now, now⟩],
          embeddings :=
            if db.vecAvailable && !(db.embeddings.any (fun p => p.1 == newId)) then
              db.embeddings ++ [(newId, v)]
            else db.embeddings })

/-- Apply the UPDATE memories statement: overwrite content and metadata as
requested and advance updated_at (both the explicit SET and the AFTER UPDATE
trigger write the current timestamp). -/
def applyMemUpdate (db : DB) (now : Nat) (id : String) (c? : Option String)
    (m? : Option Meta) : DB :=
  { db with
    memories := db.memories.map (fun r =>
      if r.id == id then
        { r with
          content := c?.getD r.content
          metadata := match m? with
            | some m => some (.ser m)
            | none => r.metadata
          updated_at := now }
      else r) }

/-- updateMemory: read the memory first (false when absent), await a new
embedding when content is given (a failure rejects before any write),
best-effort UPDATE the embedding row, then UPDATE the memory row unless no
field was given, in which case resolve true without touching storage. -/
def updateMemory (embed : String → Except Err Vec) (db : DB) (now : Nat)
    (id : String) (c? : Option String) (m? : Option Meta) : Except Err Bool × DB :=
  match getMemory db id with
  | .error e => (.error e, db)
  | .ok none => (.ok false, db)
  | .ok (some _) =>
    match c? with
    | some c =>
      match embed c with
      | .error e => (.error e, db)
      | .ok v =>
        let db1 : DB :=
          if db.vecAvailable then
            { db with embeddings := db.embeddings.map (fun p => if p.1 == id then (p.1, v) else p) }
          else db
        (.ok (db1.memories.any (fun r => r.id == id)), applyMemUpdate db1 now id (some c) m?)
    | none =>
      match m? with
      | none => (.ok true, db)
      | some _ => (.ok (db.memories.any (fun r => r.id == id)), applyMemUpdate db now id none m?)

/-- deleteMemory: DELETE the memory row; the enforced ON DELETE CASCADE
clauses remove every relationship referencing a deleted row as either
endpoint; then best-effort DELETE the embedding row (swallowed when the vec0
table is absent). Returns whether a memory row was removed. -/
def deleteMemory (db : DB) (id : String) : Bool × DB :=
  let deleted := db.memories.any (fun r => r.id == id)
  let mems := db.memories.filter (fun r => !(r.id == id))
  let rels :=
    if deleted then
      db.relationships.filter (fun r => !(r.from_memory_id == id || r.to_memory_id == id))
    else db.relationships
  let embs :=
    if db.vecAvailable then db.embeddings.filter (fun p => !(p.1 == id))
    else db.embeddings
  (deleted, { db with memories := mems, relationships := rels, embeddings := embs })

/-- WHERE clause of getRelationships. JS truthiness: an absent or empty-string
memoryId or relationshipType adds no constraint. -/
def relMatches (q : RelationshipQuery) (r : RelRow) : Bool :=
  decide (q.minStrength ≤ r.strength)
  && (match q.memoryId with
      | none => true
      | some mid =>
        if mid == "" then true
        else match q.direction with
          | .fromSide => r.from_memory_id == mid
          | .toSide => r.to_memory_id == mid
          | .both => r.from_memory_id == mid || r.to_memory_id == mid)
  && (match q.relationshipType with
      | none => true
      | some t => if t == "" then true else r.relationship_type == t)

/-- ORDER BY strength DESC, created_at DESC. -/
def relLeB (a b : RelRow) : Bool :=
  decide (b.strength < a.strength)
  || (decide (a.strength = b.strength) && decide (b.created_at ≤ a.created_at))

/-- Conversion of a relationship row to the returned record; JSON.parse of the
metadata column can throw. -/
def relOfRow (r : RelRow) : Except Err Relationship :=
  match parseMeta r.metadata with
  | .error e => .error e
  | .ok m =>
    .ok ⟨r.id, r.from_memory_id, r.to_memory_id, r.relationship_type, r.strength, m, r.created_at⟩

/-- Total spec-side row conversion, agreeing with `relOfRow` on well-formed
metadata. -/
def relPure (r : RelRow) : Relationship :=
  ⟨r.id, r.from_memory_id, r.to_memory_id, r.relationship_type, r.strength,
    metaD r.metadata, r.created_at⟩

/-- getRelationships: filter, ORDER BY strength DESC then created_at DESC,
LIMIT, and convert each row. -/
def getRelationships (db : DB) (q : RelationshipQuery) : Except Err (List Relationship) :=
  mapE relOfRow ((sortBy relLeB (db.relationships.filter (relMatches q))).take q.limit)

/-- updateRelationship: with no field given, return true without even looking
the row up; otherwise UPDATE in place and report whether a row matched. -/
def updateRelationship (db : DB) (id : String) (strength? : Option Rat)
    (m? : Option Meta) : Bool × DB :=
  match strength?, m? with
  | none, none => (true, db)
  | _, _ =>
    let changed := db.relationships.any (fun r => r.id == id)
    let rels := db.relationships.map (fun r =>
      if r.id == id then
        { r with
          strength := strength?.getD r.strength
          metadata := match m? with
            | some m => some (.ser m)
            | none => r.metadata }
      else r)
    (changed, { db with relationships := rels })

/-- Conversion of a memory row to the returned record; JSON.parse of the
metadata column can throw. -/
def memOfRow (r : MemRow) : Except Err Memory :=
  match parseMeta r.metadata with
  | .error e => .error e
  | .ok m => .ok ⟨r.id, r.content, m, r.created_at, r.updated_at⟩

/-- Total spec-side row conversion, agreeing with `memOfRow` on well-formed
metadata. -/
def memPure (r : MemRow) : Memory :=
  ⟨r.id, r.content, metaD r.metadata, r.created_at, r.updated_at⟩

/-- FROM memories m JOIN memory_embeddings v ON m.id = v.id, with the cosine
distance of each joined row to the query vector. -/
def joinedRows (db : DB) (dist : Vec → Vec → Rat) (qv : Vec) : List (MemRow × Rat) :=
  db.memories.filterMap (fun m =>
    ((db.embeddings.find? (fun p => p.1 == m.id)).map (fun p => (m, dist p.2 qv))))

/-- ORDER BY distance ASC. -/
def distLeB (a b : MemRow × Rat) : Bool := decide (a.2 ≤ b.2)

/-- ORDER BY created_at DESC. -/
def createdDescB (a b : MemRow) : Bool := decide (b.created_at ≤ a.created_at)

/-- Vector step of searchMemories: generate the query embedding, run the
joined distance query with maxDistance 1 - threshold, ascending, LIMIT.
Any error here (provider failure, missing vec0 table, malformed metadata in a
result row) is what the source catches as vectorError. -/
def vectorStep (embed : String → Except Err Vec) (dist : Vec → Vec → Rat)
    (db : DB) (query : String) (limit : Nat) (threshold : Rat) :
    Except Err (List Memory) :=
  match embed query with
  | .error e => .error e
  | .ok qv =>
    if db.vecAvailable then
      mapE (fun p => memOfRow p.1)
        ((sortBy distLeB
          ((joinedRows db dist qv).filter (fun p => decide (p.2 < 1 - threshold)))).take limit)
    else .error (.sqlErr "no such table: memory_embeddings")

/-- Fallback step of searchMemories: WHERE content LIKE percent-query-percent
ORDER BY created_at DESC LIMIT. -/
def fallbackStep (db : DB) (query : String) (limit : Nat) : Except Err (List Memory) :=
  mapE memOfRow
    ((sortBy createdDescB
      (db.memories.filter (fun r => likeMatch (likePattern query) r.content.data))).take limit)

/-- searchMemories: try the vector step; on any error there run the fallback
step, whose own errors reject the call. -/
def searchMemories (embed : String → Except Err Vec) (dist : Vec → Vec → Rat)
    (db : DB) (query : String) (limit : Nat) (threshold : Rat) :
    Except Err (List Memory) :=
  match vectorStep embed dist db query limit threshold with
  | .ok ms => .ok ms
  | .error _ => fallbackStep db query limit

/-- Other endpoint of a relationship relative to the popped node. -/
def otherEnd (id : String) (r : Relationship) : String :=
  if r.from_memory_id == id then r.to_memory_id else r.from_memory_id

/-- One relationship processed inside the BFS loop body: accumulator is
(visited, connected-in-discovery-order, entries pushed at depth + 1). -/
def bfsFold (id : String) (depth : Nat)
    (acc : List String × List String × List (String × Nat)) (r : Relationship) :
    List String × List String × List (String × Nat) :=
  let nid := otherEnd id r
  if acc.1.contains nid then acc
  else (nid :: acc.1, acc.2.1 ++ [nid], acc.2.2 ++ [(nid, depth + 1)])

/-- BFS while-loop of getConnectedMemories, with explicit fuel. One unit of
fuel is spent per queue pop; the total number of pops is at most one (the
start entry) plus the number of ids ever added to visited, each of which is
an endpoint of some relationship row, so 2 + 2 * relationships.length fuel
always reaches the empty-queue exit. -/
def bfsLoop (db : DB) (maxDepth : Nat) :
    Nat → List (String × Nat) → List String → List String → Except Err (List String)
  | 0, _, _, conn => .ok conn
  | _ + 1, [], _, conn => .ok conn
  | fuel + 1, (id, depth) :: rest, visited, conn =>
    if maxDepth ≤ depth then bfsLoop db maxDepth fuel rest visited conn
    else
      match getRelationships db { memoryId := some id } with
      | .error e => .error e
      | .ok rels =>
        let st := rels.foldl (bfsFold id depth) (visited, conn, [])
        bfsLoop db maxDepth fuel (rest ++ st.2.2) st.1 st.2.1

/-- Connected-result ids of a traversal, in discovery order (the JS Set keeps
insertion order). -/
def connectedIds (db : DB) (startId : String) (maxDepth : Nat) : Except Err (List String) :=
  bfsLoop db maxDepth (2 + 2 * db.relationships.length) [(startId, 0)] [startId] []

/-- getConnectedMemories: BFS over the undirected view of the relationship
graph, then resolve each connected id to its memory record, silently dropping
ids without a row. -/
def getConnectedMemories (db : DB) (startId : String) (maxDepth : Nat) :
    Except Err (List Memory) :=
  match connectedIds db startId maxDepth with
  | .error e => .error e
  | .ok ids =>
    match mapE (getMemory db) ids with
    | .error e => .error e
    | .ok opts => .ok (opts.filterMap (fun o => o))

/-- Modelled from the spec words for the search fallback, amended to LIKE
semantics: memories whose content matches the LIKE pattern, most recently
created first, capped at limit. -/
def fallbackSpec (db : DB) (query : String) (limit : Nat) : List Memory :=
  ((sortBy createdDescB
    (db.memories.filter (fun r => likeMatch (likePattern query) r.content.data))).take limit).map
    memPure

/-- Modelled from the spec words for the vector path: embedded memories whose
cosine distance to the query embedding is below 1 - threshold, ascending by
distance, capped at limit. -/
def vectorSpec (dist : Vec → Vec → Rat) (db : DB) (qv : Vec) (limit : Nat)
    (threshold : Rat) : List Memory :=
  ((sortBy distLeB
    ((joinedRows db dist qv).filter (fun p => decide (p.2 < 1 - threshold)))).take limit).map
    (fun p => memPure p.1)

/-- All relationship rows having the given id as either endpoint. -/
def relsTouching (db : DB) (id : String) : List RelRow :=
  db.relationships.filter (fun r => r.from_memory_id == id || r.to_memory_id == id)

/-- Relationship rows touching the id that the traversal defaults keep:
strength at least 0. -/
def relsTouchingNonneg (db : DB) (id : String) : List RelRow :=
  db.relationships.filter (fun r =>
    decide ((0 : Rat) ≤ r.strength) && (r.from_memory_id == id || r.to_memory_id == id))

/-- Chain database A - B - C - D used by the traversal claims: consecutive
memories linked by one relationship each, default strength 1. -/
def chainDB : DB :=
  { memories :=
      [⟨"A", "alpha", some (.ser []), 1, 1⟩,
       ⟨"B", "beta", some (.ser []), 2, 2⟩,
       ⟨"C", "gamma", some (.ser []), 3, 3⟩,
       ⟨"D", "delta", some (.ser []), 4, 4⟩],
    relationships :=
      [⟨"r1", "A", "B", "next", 1, some (.ser []), 1⟩,
       ⟨"r2", "B", "C", "next", 1, some (.ser []), 2⟩,
       ⟨"r3", "C", "D", "next", 1, some (.ser []), 3⟩],
    embeddings := [],
    vecAvailable := false }

/-- Two memories joined by a single negative-strength relationship. -/
def negDB : DB :=
  { memories :=
      [⟨"A", "alpha", some (.ser []), 1, 1⟩,
       ⟨"B", "beta", some (.ser []), 2, 2⟩],
    relationships := [⟨"r1", "A", "B", "next", -1, some (.ser []), 1⟩],
    embeddings := [],
    vecAvailable := false }

/-- Single memory whose content has an upper-case letter, with the vector
subsystem absent. -/
def parisDB : DB :=
  { memories := [⟨"m1", "Paris", some (.ser []), 1, 1⟩],
    relationships := [],
    embeddings := [],
    vecAvailable := false }

/-- Single memory row whose metadata column holds text that does not parse as
JSON. -/
def badMetaDB : DB :=
  { memories := [⟨"X", "hello", some (.malformed "not json"), 1, 1⟩],
    relationships := [],
    embeddings := [],
    vecAvailable := false }

/-- Embedding provider that always fails. -/
def embedDown : String → Except Err Vec := fun _ => .error (.embedFail "provider down")

/-- Degenerate distance operator used by closed instantiations. -/
def distZero : Vec → Vec → Rat := fun _ _ => 0

/-- Database with the vector subsystem present: one embedded memory. -/
def vecDB : DB :=
  { memories := [⟨"m1", "x", some (.ser []), 1, 1⟩],
    relationships := [],
    embeddings := [("m1", [1])],
    vecAvailable := true }

/-- Embedding provider that always returns the vector with single entry 1. -/
def embedOne : String → Except Err Vec := fun _ => .ok [1]

theorem insertSorted_perm (le : α → α → Bool) (a : α) (l : List α) :
    List.Perm (insertSorted le a l) (a :: l) := by
  induction l with
  | nil => simp [insertSorted]
  | cons b l ih =>
    simp only [insertSorted]
    split
    · exact List.Perm.refl _
    · exact List.Perm.trans (List.Perm.cons b ih) (List.Perm.swap a b l)

theorem sortBy_perm (le : α → α → Bool) (l : List α) :
    List.Perm (sortBy le l) l := by
  induction l with
  | nil => exact List.Perm.refl _
  | cons a l ih =>
    exact List.Perm.trans (insertSorted_perm le a (sortBy le l)) (List.Perm.cons a ih)

theorem mem_of_mem_sortBy {le : α → α → Bool} {l : List α} {a : α}
    (h : a ∈ sortBy le l) : a ∈ l :=
  (sortBy_perm le l).mem_iff.mp h

theorem mapE_ok_of_all {f : α → Except Err β} {g : α → β} {l : List α}
    (h : ∀ a ∈ l, f a = .ok (g a)) : mapE f l = .ok (l.map g) := by
  induction l with
  | nil => rfl
  | cons a l ih =>
    simp only [mapE, h a (by simp), ih (fun x hx => h x (by simp [hx])), List.map]

theorem mapE_ok_mem {f : α → Except Err β} {l : List α} {bs : List β}
    (h : mapE f l = .ok bs) : ∀ b ∈ bs, ∃ a ∈ l, f a = .ok b := by
  induction l generalizing bs with
  | nil =>
    simp only [mapE, Except.ok.injEq] at h
    subst h
    simp
  | cons a l ih =>
    simp only [mapE] at h
    cases hfa : f a with
    | error e => rw [hfa] at h; exact absurd h (by simp)
    | ok b0 =>
      rw [hfa] at h
      cases hrest : mapE f l with
      | error e => rw [hrest] at h; exact absurd h (by simp)
      | ok bs0 =>
        rw [hrest] at h
        simp only [Except.ok.injEq] at h
        subst h
        intro b hb
        rcases List.mem_cons.mp hb with hb | hb
        · exact ⟨a, by simp, hb ▸ hfa⟩
        · rcases ih hrest b hb with ⟨x, hx, hfx⟩
          exact ⟨x, by simp [hx], hfx⟩

theorem find?_append_of_none {p : α → Bool} {l1 l2 : List α}
    (h : ∀ x ∈ l1, p x = false) : (l1 ++ l2).find? p = l2.find? p := by
  induction l1 with
  | nil => rfl
  | cons a l ih =>
    rw [List.cons_append, List.find?_cons_of_neg _ (by simp [h a (by simp)])]
    exact ih (fun x hx => h x (by simp [hx]))

theorem memOfRow_eq_pure {r : MemRow} (h : metaWF r.metadata = true) :
    memOfRow r = .ok (memPure r) := by
  rcases r with ⟨i, c, md, ca, ua⟩
  rcases md with _ | md
  · rfl
  · rcases md with m | s
    · rfl
    · simp [metaWF] at h

theorem relOfRow_eq_pure {r : RelRow} (h : metaWF r.metadata = true) :
    relOfRow r = .ok (relPure r) := by
  rcases r with ⟨i, f, t, ty, st, md, ca⟩
  rcases md with _ | md
  · rfl
  · rcases md with m | s
    · rfl
    · simp [metaWF] at h

theorem getMemory_id_of_ok {db : DB} {i : String} {m : Memory}
    (h : getMemory db i = .ok (some m)) : m.id = i := by
  unfold getMemory at h
  cases hf : db.memories.find? (fun r => r.id == i) with
  | none => rw [hf] at h; exact absurd h (by simp)
  | some row =>
    rw [hf] at h
    dsimp only at h
    have hrow : row.id = i := by
      have := List.find?_some hf
      exact beq_iff_eq.mp this
    cases hp : parseMeta row.metadata with
    | error e => rw [hp] at h; exact absurd h (by simp)
    | ok md =>
      rw [hp] at h
      simp only [Except.ok.injEq, Option.some.injEq] at h
      rw [← h]
      exact hrow

theorem bfsFold_inv (id : String) (depth : Nat) (s : String) (rels : List Relationship) :
    ∀ acc : List String × List String × List (String × Nat),
      s ∈ acc.1 → s ∉ acc.2.1 →
      s ∈ (rels.foldl (bfsFold id depth) acc).1 ∧
        s ∉ (rels.foldl (bfsFold id depth) acc).2.1 := by
  induction rels with
  | nil => exact fun acc h1 h2 => ⟨h1, h2⟩
  | cons r rels ih =>
    intro acc h1 h2
    rw [List.foldl_cons]
    apply ih
    · simp only [bfsFold]
      split
      · exact h1
      · exact List.mem_cons_of_mem _ h1
    · simp only [bfsFold]
      split
      · exact h2
      · next hc =>
        intro hmem
        rcases List.mem_append.mp hmem with hmem | hmem
        · exact h2 hmem
        · have hs : s = otherEnd id r := by simpa using hmem
          have hin : otherEnd id r ∈ acc.1 := hs ▸ h1
          have htrue : List.elem (otherEnd id r) acc.1 = true := List.elem_iff.mpr hin
          rw [Bool.not_eq_true, List.contains] at hc
          rw [htrue] at hc
          exact Bool.noConfusion hc

theorem bfsLoop_not_mem (db : DB) (maxDepth : Nat) (s : String) :
    ∀ (fuel : Nat) (queue : List (String × Nat)) (visited conn : List String),
      s ∈ visited → s ∉ conn →
      ∀ l, bfsLoop db maxDepth fuel queue visited conn = .ok l → s ∉ l := by
  intro fuel
  induction fuel with
  | zero =>
    intro queue visited conn h1 h2 l h
    simp only [bfsLoop, Except.ok.injEq] at h
    exact h ▸ h2
  | succ fuel ih =>
    intro queue visited conn h1 h2 l h
    cases queue with
    | nil =>
      simp only [bfsLoop, Except.ok.injEq] at h
      exact h ▸ h2
    | cons hd rest =>
      rcases hd with ⟨id, depth⟩
      rw [bfsLoop] at h
      by_cases hdep : maxDepth ≤ depth
      · rw [if_pos hdep] at h
        exact ih rest visited conn h1 h2 l h
      · rw [if_neg hdep] at h
        cases hrels : getRelationships db { memoryId := some id } with
        | error e => rw [hrels] at h; exact absurd h (by simp)
        | ok rels =>
          rw [hrels] at h
          dsimp only at h
          have hinv := bfsFold_inv id depth s rels (visited, conn, []) h1 h2
          exact ih _ _ _ hinv.1 hinv.2 l h

theorem connectedIds_not_start (db : DB) (s : String) (d : Nat) :
    s ∉ (connectedIds db s d).toOption.getD [] := by
  cases h : connectedIds db s d with
  | error e => simp [Except.toOption]
  | ok l =>
    have := bfsLoop_not_mem db d s (2 + 2 * db.relationships.length)
      [(s, 0)] [s] [] (by simp) (by simp) l h
    simpa [Except.toOption] using this

theorem getConnectedMemories_not_start {db : DB} {s : String} {d : Nat} {l : List Memory}
    (h : getConnectedMemories db s d = .ok l) : ∀ m ∈ l, m.id ≠ s := by
  unfold getConnectedMemories at h
  cases hc : connectedIds db s d with
  | error e => rw [hc] at h; exact absurd h (by simp)
  | ok ids =>
    rw [hc] at h
    dsimp only at h
    cases hm : mapE (getMemory db) ids with
    | error e => rw [hm] at h; exact absurd h (by simp)
    | ok opts =>
      rw [hm] at h
      simp only [Except.ok.injEq] at h
      intro m hmem
      rw [← h] at hmem
      rcases List.mem_filterMap.mp hmem with ⟨o, ho, hoeq⟩
      rcases mapE_ok_mem hm o ho with ⟨x, hx, hget⟩
      have hid : m.id = x := getMemory_id_of_ok (hoeq ▸ hget)
      have hns : s ∉ ids := by
        have := connectedIds_not_start db s d
        rw [hc] at this
        simpa [Except.toOption] using this
      intro hcontra
      apply hns
      rw [← hcontra, hid]
      exact hx

/-- C5 (counterexample): with neither strength nor metadata given,
updateRelationship reports true although no relationship with that id exists,
so it does not share updateMemory's semantics of returning false on a missing
id. -/
theorem c5_counterexample :
    (updateRelationship parisDB "nope" none none).1 = true ∧
    parisDB.relationships = [] :=
  ⟨rfl, rfl⟩

/-- C5 (amended): updateRelationship with neither field given returns true
unconditionally — even when no relationship with that id exists — leaving the
state unchanged; when some field is given and no relationship matches, it
returns false with the state unchanged. -/
theorem c5_noop_semantics :
    (∀ (db : DB) (id : String), updateRelationship db id none none = (true, db)) ∧
    (∀ (db : DB) (id : String) (s? : Option Rat) (m? : Option Meta),
      (∀ r ∈ db.relationships, r.id ≠ id) → (s? ≠ none ∨ m? ≠ none) →
      updateRelationship db id s? m? = (false, db)) := by
  constructor
  · intro db id
    rfl
  · intro db id s? m? habs hgiven
    have hany : db.relationships.any (fun r => r.id == id) = false :=
      List.any_eq_false.mpr (fun r hr => by simp [habs r hr])
    have hmap : ∀ (f : RelRow → RelRow),
        db.relationships.map (fun r => if r.id == id then f r else r) = db.relationships := by
      intro f
      have h1 : db.relationships.map (fun r => if r.id == id then f r else r) =
          db.relationships.map (fun r => r) :=
        List.map_congr_left (fun r hr => by
          rw [if_neg]
          simp [habs r hr])
      rw [h1, List.map_id']
    rcases s? with _ | s <;> rcases m? with _ | m
    · rcases hgiven with h | h <;> exact absurd rfl h
    · show (db.relationships.any _, _) = _
      rw [hany, hmap]
    · show (db.relationships.any _, _) = _
      rw [hany, hmap]
    · show (db.relationships.any _, _) = _
      rw [hany, hmap]

/-- C5 (witness): at a concrete database with no relationships the empty
update returns true and a strength-only update of a missing id returns false,
both leaving the state unchanged. -/
theorem c5_noop_semantics_witness :
    updateRelationship parisDB "r9" none none = (true, parisDB) ∧
    updateRelationship parisDB "r9" (some 1) none = (false, parisDB) :=
  ⟨c5_noop_semantics.1 parisDB "r9",
    c5_noop_semantics.2 parisDB "r9" (some 1) none (by decide) (by decide)⟩

/-- C6 (counterexample): a stored metadata text that does not parse as JSON
makes getMemory throw instead of yielding the empty mapping — JSON.parse has
no try/catch around it in the read path. -/
theorem c6_counterexample :
    getMemory badMetaDB "X" = .error (.jsonErr "not json") :=
  rfl

/-- C6 (amended): reading a stored memory row parses the metadata column,
yielding the empty mapping when the column is NULL or empty, the serialized
mapping when it is well-formed, and failing with a JSON parse error when the
text is malformed. -/
theorem c6_metadata_read (db : DB) (id : String) (row : MemRow)
    (hfind : db.memories.find? (fun r => r.id == id) = some row) :
    (row.metadata = none →
      getMemory db id = .ok (some ⟨row.id, row.content, [], row.created_at, row.updated_at⟩)) ∧
    (∀ m, row.metadata = some (.ser m) →
      getMemory db id = .ok (some ⟨row.id, row.content, m, row.created_at, row.updated_at⟩)) ∧
    (∀ s, row.metadata = some (.malformed s) →
      getMemory db id = .error (.jsonErr s)) := by
  refine ⟨fun h => ?_, fun m h => ?_, fun s h => ?_⟩ <;>
    · unfold getMemory
      rw [hfind]
      dsimp only
      rw [h]
      rfl

/-- C6 (witness): the amended read semantics applied at the concrete database
whose single row carries malformed metadata text. -/
theorem c6_metadata_read_witness :
    badMetaDB.memories.find? (fun r => r.id == "X") =
      some ⟨"X", "hello", some (.malformed "not json"), 1, 1⟩ ∧
    getMemory badMetaDB "X" = .error (.jsonErr "not json") :=
  ⟨rfl, (c6_metadata_read badMetaDB "X" ⟨"X", "hello", some (.malformed "not json"), 1, 1⟩
    rfl).2.2 "not json" rfl⟩

/-- C9: over the chain A - B - C - D, traversal from A returns exactly B at
maxDepth 1, B and C at maxDepth 2, and B, C, D at maxDepth 10 (in discovery
order); and for every database, start id and depth, the connected-result set
— and hence the returned memory list — never contains the start. -/
theorem c9_chain_traversal :
    getConnectedMemories chainDB "A" 1 = .ok [⟨"B", "beta", [], 2, 2⟩] ∧
    getConnectedMemories chainDB "A" 2 =
      .ok [⟨"B", "beta", [], 2, 2⟩, ⟨"C", "gamma", [], 3, 3⟩] ∧
    getConnectedMemories chainDB "A" 10 =
      .ok [⟨"B", "beta", [], 2, 2⟩, ⟨"C", "gamma", [], 3, 3⟩, ⟨"D", "delta", [], 4, 4⟩] ∧
    (∀ (db : DB) (s : String) (d : Nat), s ∉ (connectedIds db s d).toOption.getD []) ∧
    (∀ (db : DB) (s : String) (d : Nat) (l : List Memory),
      getConnectedMemories db s d = .ok l → ∀ m ∈ l, m.id ≠ s) :=
  ⟨rfl, rfl, rfl, connectedIds_not_start,
    fun _ _ _ _ h => getConnectedMemories_not_start h⟩

/-- C9 (witness): the never-contains-start conjunct applied at the chain
database and depth 1. -/
theorem c9_chain_traversal_witness :
    getConnectedMemories chainDB "A" 1 = .ok [⟨"B", "beta", [], 2, 2⟩] ∧
    (⟨"B", "beta", [], 2, 2⟩ : Memory).id ≠ "A" :=
  ⟨rfl, c9_chain_traversal.2.2.2.2 chainDB "A" 1 [⟨"B", "beta", [], 2, 2⟩] rfl
    ⟨"B", "beta", [], 2, 2⟩ (by simp)⟩

/-- C10: when embedding generation fails, addMemory rejects with the
propagated error before inserting any row, and updateMemory with content
given rejects with the propagated error leaving every table untouched. -/
theorem c10_embed_failure_atomic (embed : String → Except Err Vec) (db : DB)
    (newId : String) (now : Nat) (c : String) (meta : Meta) (id : String)
    (m? : Option Meta) (e : Err) (hc : embed c = .error e) :
    addMemory embed db newId now c meta = (.error e, db) ∧
    (∀ mem, getMemory db id = .ok (some mem) →
      updateMemory embed db now id (some c) m? = (.error e, db)) := by
  constructor
  · unfold addMemory
    rw [hc]
  · intro mem hmem
    unfold updateMemory
    rw [hmem]
    dsimp only
    rw [hc]

/-- C10 (witness): the failing provider rejects both writes at a concrete
database holding one memory, leaving the state equal to the input state. -/
theorem c10_embed_failure_atomic_witness :
    embedDown "x" = .error (.embedFail "provider down") ∧
    addMemory embedDown parisDB "new" 5 "x" [] =
      (.error (.embedFail "provider down"), parisDB) ∧
    updateMemory embedDown parisDB 5 "m1" (some "x") none =
      (.error (.embedFail "provider down"), parisDB) :=
  ⟨rfl,
    (c10_embed_failure_atomic embedDown parisDB "new" 5 "x" [] "m1" none
      (.embedFail "provider down") rfl).1,
    (c10_embed_failure_atomic embedDown parisDB "new" 5 "x" [] "m1" none
      (.embedFail "provider down") rfl).2 ⟨"m1", "Paris", [], 1, 1⟩ rfl⟩

/-- C7: when the embedding succeeds and the generated id is fresh, addMemory
returns the new id and reading it back yields exactly the stored content and
metadata, with both timestamps at the insertion tick. -/
theorem c7_roundtrip (embed : String → Except Err Vec) (db : DB) (newId : String)
    (now : Nat) (content : String) (metadata : Meta) (v : Vec)
    (hv : embed content = .ok v)
    (hfresh : ∀ r ∈ db.memories, r.id ≠ newId) :
    (addMemory embed db newId now content metadata).1 = .ok newId ∧
    getMemory (addMemory embed db newId now content metadata).2 newId =
      .ok (some ⟨newId, content, metadata, now, now⟩) := by
  have hany : db.memories.any (fun r => r.id == newId) = false :=
    List.any_eq_false.mpr (fun r hr => by simp [hfresh r hr])
  unfold addMemory
  rw [hv]
  dsimp only
  rw [hany, if_neg Bool.false_ne_true]
  refine ⟨rfl, ?_⟩
  unfold getMemory
  dsimp only
  rw [find?_append_of_none (fun r hr => by simp [hfresh r hr]),
    List.find?_cons_of_pos _ (by simp)]
  rfl

/-- C7 (witness): the round trip evaluated at a concrete database, content
and metadata mapping. -/
theorem c7_roundtrip_witness :
    (addMemory (fun _ => .ok [2]) parisDB "m2" 9 "Tokyo" [("kind", "fact")]).1 = .ok "m2" ∧
    getMemory (addMemory (fun _ => .ok [2]) parisDB "m2" 9 "Tokyo" [("kind", "fact")]).2 "m2" =
      .ok (some ⟨"m2", "Tokyo", [("kind", "fact")], 9, 9⟩) :=
  c7_roundtrip (fun _ => .ok [2]) parisDB "m2" 9 "Tokyo" [("kind", "fact")] [2] rfl (by decide)

/-- C8: for an id with no memory row — assuming the embedding table only
holds ids of existing memories, as every reachable state does — getMemory
returns null, deleteMemory returns false, and updateMemory returns false,
each without error and without changing the state. -/
theorem c8_not_found (embed : String → Except Err Vec) (db : DB) (id : String) (now : Nat)
    (habs : ∀ r ∈ db.memories, r.id ≠ id)
    (hemb : ∀ p ∈ db.embeddings, ∃ r ∈ db.memories, r.id = p.1) :
    getMemory db id = .ok none ∧
    deleteMemory db id = (false, db) ∧
    ∀ (c? : Option String) (m? : Option Meta),
      updateMemory embed db now id c? m? = (.ok false, db) := by
  have hfind : db.memories.find? (fun r => r.id == id) = none :=
    List.find?_eq_none.mpr (fun r hr => by simp [habs r hr])
  have hget : getMemory db id = .ok none := by
    unfold getMemory
    rw [hfind]
  have hany : db.memories.any (fun r => r.id == id) = false :=
    List.any_eq_false.mpr (fun r hr => by simp [habs r hr])
  refine ⟨hget, ?_, ?_⟩
  · simp only [deleteMemory, hany]
    have hmem : db.memories.filter (fun r => !(r.id == id)) = db.memories :=
      List.filter_eq_self.mpr (fun r hr => by simp [habs r hr])
    have hembf : db.embeddings.filter (fun p => !(p.1 == id)) = db.embeddings :=
      List.filter_eq_self.mpr (fun p hp => by
        rcases hemb p hp with ⟨r, hr, hrid⟩
        have : p.1 ≠ id := hrid ▸ habs r hr
        simp [this])
    rw [hmem, if_neg Bool.false_ne_true, hembf, ite_self]
  · intro c? m?
    unfold updateMemory
    rw [hget]

/-- C8 (witness): the not-found triple evaluated at a concrete database and
an id absent from it. -/
theorem c8_not_found_witness :
    getMemory parisDB "zzz" = .ok none ∧
    deleteMemory parisDB "zzz" = (false, parisDB) ∧
    updateMemory embedDown parisDB 7 "zzz" (some "c") none = (.ok false, parisDB) :=
  ⟨(c8_not_found embedDown parisDB "zzz" 7 (by decide) (by decide)).1,
    (c8_not_found embedDown parisDB "zzz" 7 (by decide) (by decide)).2.1,
    (c8_not_found embedDown parisDB "zzz" 7 (by decide) (by decide)).2.2 (some "c") none⟩

/-- C1: assuming every relationship endpoint references an existing memory —
the invariant SQLite's enforced foreign keys maintain — and a nonempty id,
deleting memory A leaves no relationship referencing A as either endpoint,
and getRelationships for A returns the empty list. -/
theorem c1_cascade (db : DB) (a : String)
    (hfk : ∀ r ∈ db.relationships,
      (∃ m ∈ db.memories, m.id = r.from_memory_id) ∧
      (∃ m ∈ db.memories, m.id = r.to_memory_id))
    (ha : a ≠ "") :
    (∀ r ∈ (deleteMemory db a).2.relationships,
      r.from_memory_id ≠ a ∧ r.to_memory_id ≠ a) ∧
    getRelationships (deleteMemory db a).2 { memoryId := some a } = .ok [] := by
  have hmain : ∀ r ∈ (deleteMemory db a).2.relationships,
      r.from_memory_id ≠ a ∧ r.to_memory_id ≠ a := by
    intro r hr
    simp only [deleteMemory] at hr
    by_cases hdel : db.memories.any (fun m => m.id == a) = true
    · rw [hdel, if_pos rfl] at hr
      have := (List.mem_filter.mp hr).2
      constructor
      · intro hcontra
        simp [hcontra] at this
      · intro hcontra
        simp [hcontra] at this
    · rw [Bool.not_eq_true] at hdel
      rw [hdel, if_neg Bool.false_ne_true] at hr
      have hnone : ∀ m ∈ db.memories, m.id ≠ a := by
        intro m hm
        have := List.any_eq_false.mp hdel m hm
        simpa using this
      rcases hfk r hr with ⟨⟨mf, hmf, hmfid⟩, ⟨mt, hmt, hmtid⟩⟩
      exact ⟨hmfid ▸ hnone mf hmf, hmtid ▸ hnone mt hmt⟩
  refine ⟨hmain, ?_⟩
  unfold getRelationships
  have hfilter : (deleteMemory db a).2.relationships.filter
      (relMatches { memoryId := some a }) = [] := by
    rw [List.filter_eq_nil_iff]
    intro r hr
    rcases hmain r hr with ⟨h1, h2⟩
    simp [relMatches, ha, h1, h2]
  rw [hfilter]
  rfl

/-- C1 (witness): the cascade conclusion evaluated at the chain database,
whose relationships all reference existing memories. -/
theorem c1_cascade_witness :
    (∀ r ∈ chainDB.relationships,
      (∃ m ∈ chainDB.memories, m.id = r.from_memory_id) ∧
      (∃ m ∈ chainDB.memories, m.id = r.to_memory_id)) ∧
    getRelationships (deleteMemory chainDB "A").2 { memoryId := some "A" } = .ok [] :=
  ⟨by decide, (c1_cascade chainDB "A" (by decide) (by decide)).2⟩

theorem joined_fst_mem {db : DB} {dist : Vec → Vec → Rat} {qv : Vec}
    {p : MemRow × Rat} (h : p ∈ joinedRows db dist qv) : p.1 ∈ db.memories := by
  unfold joinedRows at h
  rcases List.mem_filterMap.mp h with ⟨m, hm, hmap⟩
  cases hfind : db.embeddings.find? (fun e => e.1 == m.id) with
  | none => rw [hfind] at hmap; exact absurd hmap (by simp)
  | some pr =>
    rw [hfind] at hmap
    simp only [Option.map_some'] at hmap
    have : p = (m, dist pr.2 qv) := by
      cases hmap
      rfl
    rw [this]
    exact hm

/-- C3 (counterexample): a relationship of strength minus one touching A is
not considered by the traversal — getRelationships with the traversal's
default query drops it via the minStrength 0 floor, so the connected B is
never reached. -/
theorem c3_counterexample :
    relsTouching negDB "A" = [⟨"r1", "A", "B", "next", -1, some (.ser []), 1⟩] ∧
    getRelationships negDB { memoryId := some "A" } = .ok [] ∧
    getConnectedMemories negDB "A" 1 = .ok [] :=
  ⟨rfl, rfl, rfl⟩

/-- C3 (amended): in an expansion step the relationships considered for a
popped node are exactly those touching it with strength at least 0 — and only
the first 100 of them; when at most 100 such rows exist and metadata is
well-formed, the fetched list is a permutation of all nonnegative-strength
relationships touching the node. -/
theorem c3_neighbors_considered (db : DB) (id : String) (hid : id ≠ "")
    (hlen : (relsTouchingNonneg db id).length ≤ 100)
    (hwf : ∀ r ∈ db.relationships, metaWF r.metadata = true) :
    ∃ l, getRelationships db { memoryId := some id } = .ok l ∧
      List.Perm l ((relsTouchingNonneg db id).map relPure) := by
  have hcong : db.relationships.filter (relMatches { memoryId := some id }) =
      relsTouchingNonneg db id := by
    unfold relsTouchingNonneg
    exact List.filter_congr (fun r hr => by simp [relMatches, hid])
  have hperm := sortBy_perm relLeB (relsTouchingNonneg db id)
  have hlen2 : (sortBy relLeB (relsTouchingNonneg db id)).length ≤ 100 := by
    rw [hperm.length_eq]
    exact hlen
  have hall : ∀ r ∈ sortBy relLeB (relsTouchingNonneg db id),
      relOfRow r = .ok (relPure r) := by
    intro r hr
    have hr2 : r ∈ relsTouchingNonneg db id := mem_of_mem_sortBy hr
    have hr3 : r ∈ db.relationships := by
      unfold relsTouchingNonneg at hr2
      exact (List.mem_filter.mp hr2).1
    exact relOfRow_eq_pure (hwf r hr3)
  refine ⟨(sortBy relLeB (relsTouchingNonneg db id)).map relPure, ?_, ?_⟩
  · unfold getRelationships
    rw [hcong]
    show mapE relOfRow ((sortBy relLeB (relsTouchingNonneg db id)).take 100) = _
    rw [List.take_of_length_le hlen2]
    exact mapE_ok_of_all hall
  · exact hperm.map relPure

/-- C3 (witness): the amended neighbor characterization evaluated at node B
of the chain database, which touches two relationships. -/
theorem c3_neighbors_considered_witness :
    (relsTouchingNonneg chainDB "B").length ≤ 100 ∧
    (∃ l, getRelationships chainDB { memoryId := some "B" } = .ok l ∧
      List.Perm l ((relsTouchingNonneg chainDB "B").map relPure)) :=
  ⟨by decide, c3_neighbors_considered chainDB "B" (by decide) (by decide) (by decide)⟩

/-- C2 (counterexample): with the vector step failing, the query paris
returns the memory whose content is Paris — the fallback is SQL LIKE,
ASCII-case-insensitive, not a case-sensitive substring scan, so the claim
excludes a memory the code returns. -/
theorem c2_counterexample :
    searchMemories embedDown distZero parisDB "paris" 10 (1 / 2) =
      .ok [⟨"m1", "Paris", [], 1, 1⟩] ∧
    containsSub "paris".data "Paris".data = false :=
  ⟨rfl, rfl⟩

/-- C2 (amended): whenever the vector step fails for any reason, the call
returns exactly the memories whose content matches the LIKE pattern built
from the query (ASCII-case-insensitive, with percent and underscore in the
query acting as wildcards), most recently created first, capped at limit —
provided every stored metadata text is well-formed, as every row the program
writes is. -/
theorem c2_fallback_semantics (embed : String → Except Err Vec)
    (dist : Vec → Vec → Rat) (db : DB) (query : String) (limit : Nat)
    (threshold : Rat) (e : Err)
    (hvec : vectorStep embed dist db query limit threshold = .error e)
    (hwf : ∀ r ∈ db.memories, metaWF r.metadata = true) :
    searchMemories embed dist db query limit threshold =
      .ok (fallbackSpec db query limit) := by
  unfold searchMemories
  rw [hvec]
  unfold fallbackStep fallbackSpec
  apply mapE_ok_of_all
  intro r hr
  have hr2 := mem_of_mem_sortBy (List.take_subset _ _ hr)
  exact memOfRow_eq_pure (hwf r (List.mem_filter.mp hr2).1)

/-- C2 (witness): the amended fallback semantics evaluated with a failing
provider at the concrete one-memory database; the resulting list is the LIKE
match on Paris. -/
theorem c2_fallback_semantics_witness :
    vectorStep embedDown distZero parisDB "paris" 10 (1 / 2) =
      .error (.embedFail "provider down") ∧
    searchMemories embedDown distZero parisDB "paris" 10 (1 / 2) =
      .ok (fallbackSpec parisDB "paris" 10) ∧
    fallbackSpec parisDB "paris" 10 = [⟨"m1", "Paris", [], 1, 1⟩] :=
  ⟨rfl,
    c2_fallback_semantics embedDown distZero parisDB "paris" 10 (1 / 2)
      (.embedFail "provider down") rfl (by decide),
    rfl⟩

/-- C4: on the vector path — query embedding generated, vec0 table present,
stored metadata well-formed — searchMemories returns exactly the embedded
memories whose cosine distance to the query embedding is below
1 - threshold, ascending by distance, capped at limit. -/
theorem c4_vector_path (embed : String → Except Err Vec) (dist : Vec → Vec → Rat)
    (db : DB) (query : String) (limit : Nat) (threshold : Rat) (qv : Vec)
    (hq : embed query = .ok qv)
    (hvec : db.vecAvailable = true)
    (hwf : ∀ r ∈ db.memories, metaWF r.metadata = true) :
    searchMemories embed dist db query limit threshold =
      .ok (vectorSpec dist db qv limit threshold) := by
  have hstep : vectorStep embed dist db query limit threshold =
      .ok (vectorSpec dist db qv limit threshold) := by
    unfold vectorStep vectorSpec
    rw [hq]
    dsimp only
    rw [hvec]
    rw [if_pos rfl]
    apply mapE_ok_of_all
    intro p hp
    have hp2 := mem_of_mem_sortBy (List.take_subset _ _ hp)
    exact memOfRow_eq_pure (hwf p.1 (joined_fst_mem (List.mem_filter.mp hp2).1))
  unfold searchMemories
  rw [hstep]

/-- C4 (witness): the vector-path characterization evaluated at a concrete
embedded database with a working provider, threshold 0 and the degenerate
distance operator; the single embedded memory is within the distance bound
and is returned. -/
theorem c4_vector_path_witness :
    embedOne "q" = .ok [1] ∧
    vecDB.vecAvailable = true ∧
    searchMemories embedOne distZero vecDB "q" 10 0 =
      .ok (vectorSpec distZero vecDB [1] 10 0) ∧
    vectorSpec distZero vecDB [1] 10 0 = [⟨"m1", "x", [], 1, 1⟩] := by
  refine ⟨rfl, rfl,
    c4_vector_path embedOne distZero vecDB "q" 10 0 [1] rfl rfl (by decide), ?_⟩
  have h : (1 - (0:Rat)) = 1 := by norm_num
  unfold vectorSpec
  simp only [h]
  rfl

